import Mathlib

/-!
Shallow embedding of the annotation interchange engine of the xtreme1 SDK
(`xtreme1/exporter/_popular.py`, `xtreme1/exporter/converter.py`,
`xtreme1/importer/_parse_data.py`), together with theorems settling the
specification claims about it.

Conventions: Python floats are modelled as exact rationals (`ℚ`) for the
combinatorial code and as real numbers (`ℝ`) for the trigonometric KITTI
angle code; Python `round` (banker's rounding, round-half-to-even) is
modelled exactly; JSON dictionaries become structures with `Option` fields
for optional keys; Python dicts keyed by strings become association lists
with first-insertion key order and last-write-wins values.
-/

namespace Xtreme1

/-- Python's built-in `round` on a rational value: round half to even. -/
def pyround (q : ℚ) : ℤ :=
  let f := ⌊q⌋
  let r := q - (f : ℚ)
  if r < 1/2 then f
  else if 1/2 < r then f + 1
  else if f % 2 = 0 then f else f + 1

/-- Python's `min` over a non-empty list of integers (`min([...])`);
the `[]` case never occurs at the call sites embedded here. -/
def listMin (l : List ℤ) : ℤ :=
  match l with
  | [] => 0
  | a :: rest => rest.foldl min a

/-- Python's `max` over a non-empty list of integers. -/
def listMax (l : List ℤ) : ℤ :=
  match l with
  | [] => 0
  | a :: rest => rest.foldl max a

/-- The signed shoelace sum of `polygon_area` (`_popular.py` lines 35-42):
`for i in range(n): j = (i+1) % n; area += x[i]*y[j]; area -= x[j]*y[i]`
with `n = len(x)`. -/
def shoelace (x y : List ℚ) : ℚ :=
  let n := x.length
  ∑ i ∈ Finset.range n,
    (x.getD i 0 * y.getD ((i + 1) % n) 0 - x.getD ((i + 1) % n) 0 * y.getD i 0)

/-- `polygon_area(x, y)` (`_popular.py` lines 35-44): absolute shoelace sum,
halved, rounded with Python's `round`. -/
def polygon_area (x y : List ℚ) : ℤ :=
  pyround (|shoelace x y| / 2)

/-- An object of an image-annotation record as consumed by the COCO / VOC /
LabelMe exporters: the dictionary keys read by `_to_coco` and `_get_label`.
`none` in `className` / `modelClass` models an absent key; the empty string
models a present-but-falsy value. -/
structure ImageObj where
  className : Option String
  modelClass : Option String
  type : String
  points : List (ℚ × ℚ)
  classValues : List (String × String)
  modelConfidence : Option ℚ
  deriving DecidableEq, Repr

/-- `_get_label(obj)` (`_popular.py` lines 17-32): if the `className` key is
present use it when truthy, else `'null'`; only when the key is absent is
`modelClass` consulted the same way; else the literal `'null'`. -/
def _get_label (obj : ImageObj) : String :=
  match obj.className with
  | some label0 => if label0 ≠ "" then label0 else "null"
  | none =>
    match obj.modelClass with
    | some label0 => if label0 ≠ "" then label0 else "null"
    | none => "null"

/-- The bbox computation of the COCO exporter for `RECTANGLE`/`BOUNDING_BOX`
objects (`_popular.py` lines 86-99): round every coordinate, take extrema,
emit `[x0, y0, width, height]`. -/
def cocoRectBbox (points : List (ℚ × ℚ)) : List ℤ :=
  let xl := points.map (fun p => pyround p.1)
  let yl := points.map (fun p => pyround p.2)
  let x0 := listMin xl
  let y0 := listMin yl
  [x0, y0, listMax xl - x0, listMax yl - y0]

/-- The bbox branch of the COCO importer (`_parse_data.py` lines 118-121):
`points = [{x: bbox[0], y: bbox[1]}, {x: bbox[0]+bbox[2], y: bbox[1]+bbox[3]}]`. -/
def parseCocoBboxPoints (bbox : List ℤ) : List (ℤ × ℤ) :=
  [(bbox.getD 0 0, bbox.getD 1 0),
   (bbox.getD 0 0 + bbox.getD 2 0, bbox.getD 1 0 + bbox.getD 3 0)]

/-- One annotation record as consumed by `_to_coco`: the `data` fields it
reads plus the `result` value, `none` standing for a falsy (empty) result. -/
structure AnnoRecord where
  name : String
  width : ℤ
  height : ℤ
  imageUrl : String
  result : Option (List ImageObj)
  deriving DecidableEq, Repr

/-- `img_url.split('?')[0].split('/')[-1]` (`_popular.py` line 154). -/
def urlFileName (url : String) : String :=
  (((url.splitOn "?").headD "").splitOn "/").getLastD ""

/-- A COCO `images[]` entry as built by `_to_coco` (`_popular.py` lines 151-159). -/
structure CocoImage where
  id : ℕ
  license : ℕ
  file_name : String
  xtreme1_url : String
  width : ℤ
  height : ℤ
  deriving DecidableEq, Repr

/-- The `images` list built by `_to_coco` (`_popular.py` lines 58-161):
records with a falsy `result` are skipped (`continue`, line 68); every other
record appends exactly one image entry and increments `img_id`. -/
def cocoImagesAux (imgId : ℕ) : List AnnoRecord → List CocoImage
  | [] => []
  | anno :: rest =>
    match anno.result with
    | none => cocoImagesAux imgId rest
    | some _ =>
      { id := imgId, license := 0, file_name := urlFileName anno.imageUrl,
        xtreme1_url := anno.imageUrl, width := anno.width, height := anno.height }
        :: cocoImagesAux (imgId + 1) rest

/-- The full `images` array of the emitted COCO document (`img_id` starts at 0). -/
def cocoImages (annos : List AnnoRecord) : List CocoImage :=
  cocoImagesAux 0 annos

/-- One shard of a result file: `dataId` plus its `objects` array
(`converter.py` lines 49-53). -/
structure ResultShard where
  dataId : ℕ
  objects : List ImageObj
  deriving DecidableEq, Repr

/-- A merged result entry: `result_content = shards[0]` with
`result_content['objects']` replaced by the concatenation of every shard's
objects (`converter.py` lines 49-53). A result file is a non-empty JSON list,
modelled as its head shard plus the remaining shards. -/
def mergeResultFile (first : ResultShard) (rest : List ResultShard) : ResultShard :=
  { dataId := first.dataId, objects := (first :: rest).flatMap (fun s => s.objects) }

/-- A parsed data entry: the `dataId` key read by reconstitution plus the
rest of the content, opaque here. -/
structure DataContent where
  dataId : ℕ
  name : String
  deriving DecidableEq, Repr

/-- One reconstituted annotation record (`converter.py` lines 58-61):
`none` models the falsy `{}` default when no result matches the data id. -/
structure AnnoPair where
  data : DataContent
  result : Option ResultShard
  deriving DecidableEq, Repr

/-- `id_result.get(dataId, {})` where `id_result = {r.dataId: r for r in rs}`:
dict assignment overwrites, so lookup returns the last result whose `dataId`
matches, `none` when there is none (`converter.py` lines 46-57). -/
def idResultGet (results : List ResultShard) (did : ℕ) : Option ResultShard :=
  (results.filter (fun r => r.dataId == did)).getLast?

/-- `Result.__reconstitution` (`converter.py` lines 34-69) after the zip
bookkeeping: merge every result file, build the id→result map, and pair every
data entry with its looked-up result; with `dropna` set, records whose result
is falsy are dropped (`continue`), otherwise every record is kept. -/
def reconstitution (dropna : Bool) (resultFiles : List (ResultShard × List ResultShard))
    (datas : List DataContent) : List AnnoPair :=
  let results := resultFiles.map (fun f => mergeResultFile f.1 f.2)
  datas.filterMap (fun d =>
    let res := idResultGet results d.dataId
    if dropna && res.isNone then none else some ⟨d, res⟩)

/-- Keep an optional string only when it is Python-truthy (present and
non-empty). -/
def truthyStr (o : Option String) : Option String :=
  match o with
  | some s => if s ≠ "" then some s else none
  | none => none

/-- The claim's reading of the label fallback, written from the spec's words
for comparison with `_get_label`: the `className` when non-empty, otherwise
the `modelClass` when non-empty, otherwise `"null"`. -/
def claimGetLabel (obj : ImageObj) : String :=
  ((truthyStr obj.className).or (truthyStr obj.modelClass)).getD "null"

/-- An object of a lidar-fusion record as consumed by `_to_kitti` and
`_to_kitti_like`: the keys those exporters read (`type`, `trackId`,
`className`, `classValues`, `contour.points`, `contour.viewIndex`). -/
structure XObj where
  type : String
  trackId : String
  className : String
  classValues : List (String × String)
  points : List (ℚ × ℚ)
  viewIndex : ℤ
  deriving DecidableEq, Repr

/-- The dict key `f"{x['trackId']}-{x['contour']['viewIndex']}"` of
`_to_kitti` (`_popular.py` line 428). -/
def rectKey (x : XObj) : String :=
  x.trackId ++ "-" ++ toString x.viewIndex

/-- Python dict assignment `d[k] = v` on an association list with unique
keys: replace in place when the key exists, append otherwise. -/
def dictInsert (d : List (String × XObj)) (k : String) (v : XObj) :
    List (String × XObj) :=
  if d.any (fun p => p.1 == k) then d.map (fun p => if p.1 == k then (k, v) else p)
  else d ++ [(k, v)]

/-- A Python dict comprehension `{key(x): x for x in items}`: keys in
first-insertion order, later values overwrite earlier ones. -/
def buildDict (items : List (String × XObj)) : List (String × XObj) :=
  items.foldl (fun d p => dictInsert d p.1 p.2) []

/-- The `obj_rect` dict of `_to_kitti` (`_popular.py` lines 428-429): the
record's `2D_RECT` objects keyed by `rectKey`; one label line is then written
per value of this dict. -/
def kittiObjRect (objs : List XObj) : List (String × XObj) :=
  buildDict ((objs.filter (fun x => x.type == "2D_RECT")).map (fun x => (rectKey x, x)))

/-- Modelled from the spec: the helper `groupby` is imported from
`xtreme1._others` but missing from the sources; per the spec it groups 2D
rects by `trackId` into a map from key to the list of items with that key,
order preserved; this is fused with the `.get(track_id, [])` lookup used at
`_popular.py` line 491. -/
def groupbyGet (key : XObj → String) (xs : List XObj) (k : String) : List XObj :=
  xs.filter (fun x => key x == k)

/-- The placeholder rect `add_rect` synthesized by the completion pass of
`_to_kitti_like` (`_popular.py` lines 496-514): zero-size points, empty
`classValues`, the 3D box's `trackId` and `className`, the missing view. -/
def zeroRect (tid label : String) (viewId : ℤ) : XObj :=
  { type := "2D_RECT", trackId := tid, className := label, classValues := [],
    points := [(0, 0), (0, 0)], viewIndex := viewId }

/-- The completed rect list of `_to_kitti_like` (`_popular.py` lines
484-515): the record's `2D_RECT`s followed by, for each entry of the
`obj_3d` dict in order, one placeholder for every camera view index in
`range(n_cams)` at which no original rect with that `trackId` was observed. -/
def kittiLikeRects (nCams : ℕ) (objs : List XObj) : List XObj :=
  let rects := objs.filter (fun x => x.type == "2D_RECT")
  let obj3d := buildDict ((objs.filter (fun x => x.type == "3D_BOX")).map
    (fun x => (x.trackId, x)))
  rects ++ obj3d.flatMap (fun ti =>
    ((List.range nCams).filter (fun w : ℕ =>
      !((groupbyGet (fun x => x.trackId) rects ti.1).any
        (fun r => r.viewIndex == (w : ℤ))))).map
      (fun w : ℕ => zeroRect ti.1 ti.2.className (w : ℤ)))

/-- Concrete data: two `2D_RECT` objects sharing the key pair
(`trackId = "a"`, `viewIndex = 0`), distinguished by their points. -/
def dedupRectA : XObj := ⟨"2D_RECT", "a", "Car", [], [(1, 1), (2, 2)], 0⟩

/-- Second rect with the same (trackId, viewIndex) pair as `dedupRectA`. -/
def dedupRectB : XObj := ⟨"2D_RECT", "a", "Car", [], [(3, 3), (4, 4)], 0⟩

/-- Concrete data: a rect whose string key `"a--1"` collides with that of a
rect of trackId `"a-"` at view 1 because of the negative view index. -/
def collideRect1 : XObj := ⟨"2D_RECT", "a", "Car", [], [(1, 1)], -1⟩

/-- Second rect with pair (`"a"`, `-1`); the last of that pair in order. -/
def collideRect2 : XObj := ⟨"2D_RECT", "a", "Car", [], [(2, 2)], -1⟩

/-- A rect with trackId `"a-"` and view 1: its key is also `"a--1"`. -/
def collideRect3 : XObj := ⟨"2D_RECT", "a-", "Car", [], [(3, 3)], 1⟩

/-- Concrete data: a 3D box with trackId `"T"` for the completion witness. -/
def complBox : XObj := ⟨"3D_BOX", "T", "Car", [], [], 0⟩

/-- Its single observed 2D rect, at view index 1 of a 3-camera setup. -/
def complObsRect : XObj := ⟨"2D_RECT", "T", "Car", [], [(10, 10), (20, 20)], 1⟩

/-- `np.arctan2(y, x)`, modelled as the argument of the complex number
`x + y*i`, which has range `(-π, π]` like numpy's. -/
noncomputable def arctan2 (y x : ℝ) : ℝ :=
  Complex.arg ⟨x, y⟩

/-- `alpha_in_pi(a)` (`_popular.py` lines 398-400 and `_parse_data.py`
lines 209-212): `a - math.floor((a + pi) / (2 * pi)) * 2 * pi`. -/
noncomputable def alpha_in_pi (a : ℝ) : ℝ :=
  a - (⌊(a + Real.pi) / (2 * Real.pi)⌋ : ℝ) * 2 * Real.pi

/-- The `theta` computed inside `gen_alpha` (`_popular.py` line 410):
`alpha_in_pi(arctan2(cam_center[0], cam_center[2]))` for the camera-frame
center of the object. -/
noncomputable def gen_theta (ext : Matrix (Fin 4) (Fin 4) ℝ) (lidar_center : Fin 3 → ℝ) : ℝ :=
  alpha_in_pi (arctan2
    ((ext.mulVec ![lidar_center 0, lidar_center 1, lidar_center 2, 1]) 0)
    ((ext.mulVec ![lidar_center 0, lidar_center 1, lidar_center 2, 1]) 2))

/-- `gen_alpha(rz, ext_matrix, lidar_center)` (`_popular.py` lines 403-412):
returns `(ry, alpha)` with `ry = -alpha_in_pi(arctan2(Δz, Δx))` of the
transformed yaw direction and `alpha = ry - theta`. -/
noncomputable def gen_alpha (rz : ℝ) (ext : Matrix (Fin 4) (Fin 4) ℝ)
    (lidar_center : Fin 3 → ℝ) : ℝ × ℝ :=
  let cam_point := ext.mulVec ![Real.cos rz, Real.sin rz, 0, 1]
  let cam_point_0 := ext.mulVec ![0, 0, 0, 1]
  let ry := -(alpha_in_pi (arctan2 (cam_point 2 - cam_point_0 2)
    (cam_point 0 - cam_point_0 0)))
  let theta := gen_theta ext lidar_center
  (ry, ry - theta)

/-- One parsed KITTI label line: the 15 space-separated fields of
`label_2/*.txt` as read by `KittiDataset.parse_result`
(`_parse_data.py` lines 284-296). -/
structure KittiLine where
  label : String
  truncated : ℝ
  occluded : ℝ
  alpha : ℝ
  x0 : ℝ
  y0 : ℝ
  x1 : ℝ
  y1 : ℝ
  height : ℝ
  width : ℝ
  length : ℝ
  cx : ℝ
  cy : ℝ
  cz : ℝ
  ry : ℝ

/-- A platform object produced by the KITTI importer: either the 3D box dict
of `_parse_data.py` lines 300-322 or the companion 2D rect dict of lines
324-337. -/
inductive ImportObj where
  | box3d (className trackId trackName : String)
      (size3D center3D rotation3D : ℝ × ℝ × ℝ)
  | rect2d (className trackId : String) (trackName : ℕ)
      (points : List (ℝ × ℝ)) (viewIndex : ℕ)

/-- The two objects built from one kept KITTI line (`_parse_data.py` lines
289-338): the 3D box (lidar-frame center from `inv(E)`, yaw recovered via
`arctan2` and `alpha_in_pi`) and the 2D rect at view index 0. -/
noncomputable def kittiLineObjs (ext : Matrix (Fin 4) (Fin 4) ℝ) (tid : String)
    (num : ℕ) (l : KittiLine) : List ImportObj :=
  let lidar_center := ext⁻¹.mulVec ![l.cx, l.cy, l.cz, 1]
  let cam_to_lidar_point := ext⁻¹.mulVec ![Real.cos (-l.ry), 0, Real.sin (-l.ry), 1]
  let point_0 := ext⁻¹.mulVec ![0, 0, 0, 1]
  let rz := arctan2 (cam_to_lidar_point 1 - point_0 1)
    (cam_to_lidar_point 0 - point_0 0)
  [ImportObj.box3d l.label tid (toString num)
      (l.length, l.width, l.height)
      (lidar_center 0, lidar_center 1, lidar_center 2 + l.height / 2)
      (0, 0, alpha_in_pi rz),
   ImportObj.rect2d l.label tid num
      [(l.x0, l.y0), (l.x0, l.y1), (l.x1, l.y1), (l.x1, l.y0)] 0]

/-- The object list built by `KittiDataset.parse_result` (`_parse_data.py`
lines 278-341): lines labeled `DontCare` or `Misc` are skipped (`continue`);
every other line appends its two objects and increments `num`; `gen` models
the stream of random `nanoid` track ids, one drawn per kept line. -/
noncomputable def parseKittiLines (ext : Matrix (Fin 4) (Fin 4) ℝ)
    (gen : ℕ → String) (num : ℕ) : List KittiLine → List ImportObj
  | [] => []
  | l :: rest =>
    if l.label = "DontCare" ∨ l.label = "Misc" then
      parseKittiLines ext gen num rest
    else
      kittiLineObjs ext (gen num) num l ++ parseKittiLines ext gen (num + 1) rest

/-! ## Helper lemmas -/

theorem cocoImagesAux_length (imgId : ℕ) (l : List AnnoRecord) :
    (cocoImagesAux imgId l).length = (l.filter (fun a => a.result.isSome)).length := by
  induction l generalizing imgId with
  | nil => rfl
  | cons a rest ih => cases h : a.result <;> simp [cocoImagesAux, h, ih]

theorem parseKittiLines_filter (ext : Matrix (Fin 4) (Fin 4) ℝ)
    (gen : ℕ → String) (num : ℕ) (lines : List KittiLine) :
    parseKittiLines ext gen num lines
      = parseKittiLines ext gen num
          (lines.filter (fun l => decide (l.label ≠ "DontCare" ∧ l.label ≠ "Misc"))) := by
  induction lines generalizing num with
  | nil => rfl
  | cons l rest ih =>
    by_cases h : l.label = "DontCare" ∨ l.label = "Misc"
    · have hb : decide (l.label ≠ "DontCare" ∧ l.label ≠ "Misc") = false := by
        rcases h with h | h <;> simp [h]
      rw [List.filter_cons, hb]
      simp only [parseKittiLines, if_pos h]
      exact ih num
    · have hb : decide (l.label ≠ "DontCare" ∧ l.label ≠ "Misc") = true := by
        push_neg at h
        simp [h.1, h.2]
      rw [List.filter_cons, hb]
      simp only [parseKittiLines, if_neg h]
      rw [ih (num + 1)]

theorem getD_reverse (l : List ℚ) (i : ℕ) (h : i < l.length) :
    l.reverse.getD i 0 = l.getD (l.length - 1 - i) 0 := by
  simp only [List.getD_eq_getElem?_getD]
  rw [List.getElem?_reverse h]

theorem shoelace_reverse (x y : List ℚ) (h : y.length = x.length) :
    shoelace x.reverse y.reverse = -shoelace x y := by
  simp only [shoelace, List.length_reverse]
  rcases Nat.eq_zero_or_pos x.length with h0 | hpos
  · simp [h0]
  obtain ⟨m, hm⟩ : ∃ m, x.length = m + 1 := ⟨x.length - 1, by omega⟩
  rw [hm]
  rw [Finset.sum_range_succ, Finset.sum_range_succ]
  have hterm : ∀ i ∈ Finset.range m,
      (x.reverse.getD i 0 * y.reverse.getD ((i + 1) % (m + 1)) 0
        - x.reverse.getD ((i + 1) % (m + 1)) 0 * y.reverse.getD i 0)
      = -(x.getD (m - 1 - i) 0 * y.getD ((m - 1 - i + 1) % (m + 1)) 0
          - x.getD ((m - 1 - i + 1) % (m + 1)) 0 * y.getD (m - 1 - i) 0) := by
    intro i hi
    rw [Finset.mem_range] at hi
    have hi1 : (i + 1) % (m + 1) = i + 1 := Nat.mod_eq_of_lt (by omega)
    have hj1 : (m - 1 - i + 1) % (m + 1) = m - i := by
      have e : m - 1 - i + 1 = m - i := by omega
      rw [e, Nat.mod_eq_of_lt (by omega)]
    have ex1 : x.reverse.getD i 0 = x.getD (m - i) 0 := by
      rw [getD_reverse x i (by omega)]; congr 1; omega
    have ex2 : x.reverse.getD (i + 1) 0 = x.getD (m - 1 - i) 0 := by
      rw [getD_reverse x (i + 1) (by omega)]; congr 1; omega
    have ey1 : y.reverse.getD i 0 = y.getD (m - i) 0 := by
      rw [getD_reverse y i (by omega)]; congr 1; omega
    have ey2 : y.reverse.getD (i + 1) 0 = y.getD (m - 1 - i) 0 := by
      rw [getD_reverse y (i + 1) (by omega)]; congr 1; omega
    rw [hi1, hj1, ex1, ex2, ey1, ey2]
    ring
  rw [Finset.sum_congr rfl hterm, Finset.sum_neg_distrib,
    Finset.sum_range_reflect (fun j => x.getD j 0 * y.getD ((j + 1) % (m + 1)) 0
      - x.getD ((j + 1) % (m + 1)) 0 * y.getD j 0) m]
  have hm0 : (m + 1) % (m + 1) = 0 := Nat.mod_self _
  have e1 : x.reverse.getD m 0 = x.getD 0 0 := by
    rw [getD_reverse x m (by omega)]; congr 1; omega
  have e2 : x.reverse.getD 0 0 = x.getD m 0 := by
    rw [getD_reverse x 0 (by omega)]; congr 1; omega
  have e3 : y.reverse.getD m 0 = y.getD 0 0 := by
    rw [getD_reverse y m (by omega)]; congr 1; omega
  have e4 : y.reverse.getD 0 0 = y.getD m 0 := by
    rw [getD_reverse y 0 (by omega)]; congr 1; omega
  rw [hm0, e1, e2, e3, e4]
  ring

theorem arctan2_zero_neg_one : arctan2 0 (-1) = Real.pi := by
  have h : (⟨-1, 0⟩ : ℂ) = (-1 : ℂ) := by apply Complex.ext <;> simp
  unfold arctan2
  rw [h, Complex.arg_neg_one]

theorem arctan2_neg_one_zero : arctan2 (-1) 0 = -(Real.pi / 2) := by
  have h : (⟨0, -1⟩ : ℂ) = -Complex.I := by apply Complex.ext <;> simp
  unfold arctan2
  rw [h, Complex.arg_neg_I]

theorem alpha_in_pi_pi : alpha_in_pi Real.pi = -Real.pi := by
  unfold alpha_in_pi
  have h : (Real.pi + Real.pi) / (2 * Real.pi) = 1 := by
    rw [div_eq_one_iff_eq (by positivity)]
    ring
  rw [h, Int.floor_one]
  push_cast
  ring

theorem alpha_in_pi_neg_half : alpha_in_pi (-(Real.pi / 2)) = -(Real.pi / 2) := by
  unfold alpha_in_pi
  have hπ : Real.pi ≠ 0 := Real.pi_ne_zero
  have h : (-(Real.pi / 2) + Real.pi) / (2 * Real.pi) = 1 / 4 := by
    field_simp
    ring
  rw [h]
  have hf : ⌊(1 / 4 : ℝ)⌋ = 0 := by
    rw [Int.floor_eq_zero_iff]
    constructor <;> norm_num
  rw [hf]
  push_cast
  ring

theorem alpha_in_pi_three_halves : alpha_in_pi (3 * Real.pi / 2) = -(Real.pi / 2) := by
  unfold alpha_in_pi
  have hπ : Real.pi ≠ 0 := Real.pi_ne_zero
  have h : (3 * Real.pi / 2 + Real.pi) / (2 * Real.pi) = 5 / 4 := by
    field_simp
    ring
  rw [h]
  have hf : ⌊(5 / 4 : ℝ)⌋ = 1 := by
    rw [Int.floor_eq_iff]
    norm_num
  rw [hf]
  push_cast
  ring

theorem gen_theta_cex_val : gen_theta 1 ![-1, 0, 0] = -(Real.pi / 2) := by
  unfold gen_theta
  rw [Matrix.one_mulVec]
  simp only [Matrix.cons_val_zero, Matrix.cons_val_one, Matrix.cons_val_two,
    Matrix.tail_cons, Matrix.head_cons]
  rw [arctan2_neg_one_zero, alpha_in_pi_neg_half]

theorem gen_alpha_cex_val :
    gen_alpha Real.pi 1 ![-1, 0, 0] = (Real.pi, 3 * Real.pi / 2) := by
  unfold gen_alpha
  rw [Matrix.one_mulVec, Matrix.one_mulVec]
  simp only [Matrix.cons_val_zero, Matrix.cons_val_one, Matrix.cons_val_two,
    Matrix.tail_cons, Matrix.head_cons, Real.cos_pi, Real.sin_pi, sub_zero]
  rw [gen_theta_cex_val, arctan2_zero_neg_one, alpha_in_pi_pi]
  simp only [Prod.mk.injEq]
  constructor <;> ring

theorem dictInsert_mem {P : String × XObj → Prop} {d : List (String × XObj)}
    {k : String} {v : XObj} (hd : ∀ q ∈ d, P q) (hkv : P (k, v)) :
    ∀ q ∈ dictInsert d k v, P q := by
  intro q hq
  unfold dictInsert at hq
  split at hq
  · rw [List.mem_map] at hq
    obtain ⟨p, hp, he⟩ := hq
    by_cases hpk : p.1 == k
    · rw [if_pos hpk] at he; exact he ▸ hkv
    · rw [if_neg hpk] at he; exact he ▸ hd p hp
  · rw [List.mem_append] at hq
    rcases hq with hq | hq
    · exact hd q hq
    · rw [List.mem_singleton] at hq; exact hq ▸ hkv

theorem dictInsert_keys_nodup {d : List (String × XObj)} {k : String} {v : XObj}
    (h : (d.map Prod.fst).Nodup) :
    ((dictInsert d k v).map Prod.fst).Nodup := by
  unfold dictInsert
  split
  · have : (d.map (fun p => if p.1 == k then (k, v) else p)).map Prod.fst
        = d.map Prod.fst := by
      rw [List.map_map]
      apply List.map_congr_left
      intro p _
      by_cases hpk : p.1 == k
      · simp only [Function.comp_apply, if_pos hpk]
        exact (eq_of_beq hpk).symm
      · simp only [Function.comp_apply, if_neg hpk]
    rw [this]
    exact h
  · rename_i hany
    rw [List.map_append]
    simp only [List.map_cons, List.map_nil]
    rw [List.nodup_append]
    refine ⟨h, List.nodup_singleton _, ?_⟩
    intro a ha hb
    rw [List.mem_singleton] at hb
    subst hb
    rw [List.mem_map] at ha
    obtain ⟨p, hp, he⟩ := ha
    apply hany
    rw [List.any_eq_true]
    exact ⟨p, hp, by simp [he]⟩

theorem filter_map_replace {d : List (String × XObj)} {k : String} {v : XObj}
    {q : String} (h : q ≠ k) :
    (d.map (fun p => if p.1 == k then (k, v) else p)).filter (fun p => p.1 == q)
      = d.filter (fun p => p.1 == q) := by
  induction d with
  | nil => rfl
  | cons p rest ih =>
    simp only [List.map_cons, List.filter_cons]
    by_cases hpk : p.1 == k
    · rw [if_pos hpk]
      have h1 : ((k, v).1 == q) = false := by
        simp only [beq_eq_false_iff_ne]
        exact fun hc => h hc.symm
      have h2 : (p.1 == q) = false := by
        simp only [beq_eq_false_iff_ne]
        rw [eq_of_beq hpk]
        exact fun hc => h hc.symm
      rw [h1, h2]
      exact ih
    · rw [if_neg hpk]
      cases hpq : (p.1 == q)
      · rw [if_neg (by simp), if_neg (by simp)]
        exact ih
      · rw [if_pos rfl, if_pos rfl, ih]

theorem dictInsert_filter_ne {d : List (String × XObj)} {k : String} {v : XObj}
    {q : String} (h : q ≠ k) :
    (dictInsert d k v).filter (fun p => p.1 == q) = d.filter (fun p => p.1 == q) := by
  unfold dictInsert
  split
  · exact filter_map_replace h
  · rw [List.filter_append]
    have h1 : ((k, v).1 == q) = false := by
      simp only [beq_eq_false_iff_ne]
      exact fun hc => h hc.symm
    simp [h1]

theorem filter_map_replace_eq {d : List (String × XObj)} {k : String} {v : XObj}
    (h : (d.map Prod.fst).Nodup) (hmem : (d.any (fun p => p.1 == k)) = true) :
    (d.map (fun p => if p.1 == k then (k, v) else p)).filter (fun p => p.1 == k)
      = [(k, v)] := by
  induction d with
  | nil => simp at hmem
  | cons p rest ih =>
    simp only [List.map_cons, List.nodup_cons] at h
    obtain ⟨hnotin, hnd⟩ := h
    simp only [List.map_cons, List.filter_cons]
    by_cases hpk : p.1 == k
    · rw [if_pos hpk]
      have hk : ((k, v).1 == k) = true := by simp
      rw [hk, if_pos rfl]
      have hrest : (rest.map (fun p => if p.1 == k then (k, v) else p)).filter
          (fun p => p.1 == k) = [] := by
        rw [List.filter_eq_nil_iff]
        intro a ha
        rw [List.mem_map] at ha
        obtain ⟨q, hq, he⟩ := ha
        have hqk : ¬(q.1 == k) = true := by
          intro hc
          apply hnotin
          rw [List.mem_map]
          exact ⟨q, hq, by rw [eq_of_beq hc, eq_of_beq hpk]⟩
        rw [if_neg hqk] at he
        subst he
        exact hqk
      rw [hrest]
    · rw [if_neg hpk]
      have hpf : (p.1 == k) = false := by simpa using hpk
      rw [hpf, if_neg (by simp)]
      apply ih hnd
      rcases List.any_eq_true.mp hmem with ⟨q, hq, hqk⟩
      rcases List.mem_cons.mp hq with rfl | hq'
      · exact absurd hqk hpk
      · exact List.any_eq_true.mpr ⟨q, hq', hqk⟩

theorem dictInsert_filter_eq {d : List (String × XObj)} {k : String} {v : XObj}
    (h : (d.map Prod.fst).Nodup) :
    (dictInsert d k v).filter (fun p => p.1 == k) = [(k, v)] := by
  unfold dictInsert
  split
  · rename_i hany
    exact filter_map_replace_eq h hany
  · rename_i hany
    rw [List.filter_append]
    have hd : d.filter (fun p => p.1 == k) = [] := by
      rw [List.filter_eq_nil_iff]
      intro a ha hak
      exact hany (List.any_eq_true.mpr ⟨a, ha, hak⟩)
    rw [hd]
    simp

theorem foldl_dictInsert_filter (items : List (String × XObj)) (k : String) :
    ∀ d, (d.map Prod.fst).Nodup →
    (items.foldl (fun acc p => dictInsert acc p.1 p.2) d).filter (fun p => p.1 == k)
      = match (items.filter (fun p => p.1 == k)).getLast? with
        | none => d.filter (fun p => p.1 == k)
        | some q => [(k, q.2)] := by
  induction items with
  | nil => intro d hd; rfl
  | cons it rest ih =>
    intro d hd
    simp only [List.foldl_cons, List.filter_cons]
    have hd' : ((dictInsert d it.1 it.2).map Prod.fst).Nodup := dictInsert_keys_nodup hd
    rw [ih _ hd']
    by_cases hik : it.1 == k
    · rw [if_pos hik]
      cases hrf : rest.filter (fun p => p.1 == k) with
      | nil =>
        simp only [List.getLast?_nil, List.getLast?_singleton]
        rw [show k = it.1 from (eq_of_beq hik).symm]
        exact dictInsert_filter_eq hd
      | cons b l =>
        simp only [List.getLast?_cons_cons]
        cases hbl : (b :: l).getLast? with
        | none => simp at hbl
        | some q => rfl
    · rw [if_neg hik]
      have hne : k ≠ it.1 := fun hc => hik (by rw [hc]; simp)
      cases hrf : (rest.filter (fun p => p.1 == k)).getLast? with
      | none => exact dictInsert_filter_ne hne
      | some q => rfl

theorem buildDict_filter (items : List (String × XObj)) (k : String) :
    (buildDict items).filter (fun p => p.1 == k)
      = match (items.filter (fun p => p.1 == k)).getLast? with
        | none => []
        | some q => [(k, q.2)] := by
  have h := foldl_dictInsert_filter items k [] (by simp)
  rw [buildDict]
  rw [h]
  cases (items.filter (fun p => p.1 == k)).getLast? <;> rfl

theorem buildDict_mem {P : String × XObj → Prop} {items : List (String × XObj)}
    (hitems : ∀ q ∈ items, P q) : ∀ q ∈ buildDict items, P q := by
  rw [buildDict]
  have hgen : ∀ (its : List (String × XObj)), (∀ q ∈ its, P q) →
      ∀ d, (∀ q ∈ d, P q) →
      ∀ q ∈ its.foldl (fun acc p => dictInsert acc p.1 p.2) d, P q := by
    intro its
    induction its with
    | nil => intro _ d hd q hq; exact hd q hq
    | cons it rest ih =>
      intro hits d hd
      simp only [List.foldl_cons]
      exact ih (fun q hq => hits q (List.mem_cons_of_mem _ hq))
        (dictInsert d it.1 it.2)
        (dictInsert_mem hd (hits it (List.mem_cons_self it rest)))
  exact hgen items hitems [] (by simp)

theorem length_filter_range_ne (n v : ℕ) (h : v < n) :
    ((List.range n).filter (fun w => w != v)).length = n - 1 := by
  induction n with
  | zero => omega
  | succ m ih =>
    rw [List.range_succ, List.filter_append, List.length_append]
    by_cases hv : v < m
    · rw [ih hv]
      have hm : (m != v) = true := by
        simp only [bne_iff_ne, ne_eq]
        omega
      simp [hm]
      omega
    · have hvm : v = m := by omega
      subst hvm
      have h1 : ([v].filter (fun w => w != v)).length = 0 := by simp
      have h2 : (List.range v).filter (fun w => w != v) = List.range v := by
        rw [List.filter_eq_self]
        intro a ha
        rw [List.mem_range] at ha
        simp only [bne_iff_ne, ne_eq]
        omega
      rw [h1, h2, List.length_range]
      omega

theorem flatMap_filterKey (l : List (String × XObj)) (g : String × XObj → List XObj)
    (k : String) (hg : ∀ ti, ∀ x ∈ g ti, x.trackId = ti.1) :
    (l.flatMap (fun ti => (g ti).filter (fun x => x.trackId == k)))
      = (l.filter (fun ti => ti.1 == k)).flatMap g := by
  induction l with
  | nil => rfl
  | cons ti rest ih =>
    simp only [List.flatMap_cons, List.filter_cons]
    by_cases hk : (ti.1 == k) = true
    · rw [if_pos hk]
      simp only [List.flatMap_cons]
      have hself : (g ti).filter (fun x => x.trackId == k) = g ti := by
        rw [List.filter_eq_self]
        intro x hx
        rw [beq_iff_eq, hg ti x hx]
        exact eq_of_beq hk
      rw [hself, ih]
    · rw [if_neg hk]
      have hnil : (g ti).filter (fun x => x.trackId == k) = [] := by
        rw [List.filter_eq_nil_iff]
        intro x hx hc
        apply hk
        rw [beq_iff_eq] at hc ⊢
        rw [← hg ti x hx]
        exact hc
      rw [hnil, ih]
      simp

/-! ## Claim theorems -/

/-- C2 counterexample: at the input `π`, `alpha_in_pi` returns `-π`, which
does not lie in the claimed half-open interval `(-π, π]`. -/
theorem alpha_in_pi_interval_cex :
    alpha_in_pi Real.pi ∉ Set.Ioc (-Real.pi) Real.pi := by
  rw [alpha_in_pi_pi]
  simp [Set.mem_Ioc]

/-- C2 (amended): for every real `a`, `alpha_in_pi a` lies in the half-open
interval `[-π, π)` (closed on the left, open on the right — not `(-π, π]`)
and differs from `a` by an integer multiple of `2π`. -/
theorem alpha_in_pi_spec (a : ℝ) :
    alpha_in_pi a ∈ Set.Ico (-Real.pi) Real.pi ∧
    ∃ k : ℤ, a - alpha_in_pi a = k * (2 * Real.pi) := by
  have hπ := Real.pi_pos
  have h2π : (0 : ℝ) < 2 * Real.pi := by linarith
  have hval : alpha_in_pi a
      = a - (⌊(a + Real.pi) / (2 * Real.pi)⌋ : ℝ) * (2 * Real.pi) := by
    simp only [alpha_in_pi]
    ring
  have h1 : (⌊(a + Real.pi) / (2 * Real.pi)⌋ : ℝ) * (2 * Real.pi) ≤ a + Real.pi := by
    have := Int.floor_le ((a + Real.pi) / (2 * Real.pi))
    calc (⌊(a + Real.pi) / (2 * Real.pi)⌋ : ℝ) * (2 * Real.pi)
        ≤ ((a + Real.pi) / (2 * Real.pi)) * (2 * Real.pi) :=
          mul_le_mul_of_nonneg_right this (by linarith)
      _ = a + Real.pi := by field_simp
  have h2 : a + Real.pi
      < ((⌊(a + Real.pi) / (2 * Real.pi)⌋ : ℝ) + 1) * (2 * Real.pi) := by
    have := Int.lt_floor_add_one ((a + Real.pi) / (2 * Real.pi))
    calc a + Real.pi = ((a + Real.pi) / (2 * Real.pi)) * (2 * Real.pi) := by field_simp
      _ < ((⌊(a + Real.pi) / (2 * Real.pi)⌋ : ℝ) + 1) * (2 * Real.pi) :=
          mul_lt_mul_of_pos_right this h2π
  refine ⟨⟨?_, ?_⟩, ⟨⌊(a + Real.pi) / (2 * Real.pi)⌋, ?_⟩⟩
  · rw [hval]; nlinarith
  · rw [hval]; nlinarith
  · rw [hval]; ring

/-- C3 counterexample: with the identity extrinsic, `rz = π` and lidar
center `(-1, 0, 0)`, `gen_alpha` returns `alpha = 3π/2`, while normalizing
`ry - theta` would give `-π/2`: the returned alpha is NOT normalized back
into the principal interval. -/
theorem gen_alpha_normalize_cex :
    (gen_alpha Real.pi 1 ![-1, 0, 0]).2
      ≠ alpha_in_pi ((gen_alpha Real.pi 1 ![-1, 0, 0]).1 - gen_theta 1 ![-1, 0, 0]) := by
  rw [gen_alpha_cex_val, gen_theta_cex_val]
  have h : Real.pi - -(Real.pi / 2) = 3 * Real.pi / 2 := by ring
  rw [h, alpha_in_pi_three_halves]
  have hπ := Real.pi_pos
  intro hc
  nlinarith

/-- C3 (amended): the alpha returned by `gen_alpha` is exactly `ry - theta`
without any further normalization (line 411 of `_popular.py` applies no
`alpha_in_pi` to the difference), so it can leave the principal interval. -/
theorem gen_alpha_unnormalized (rz : ℝ) (ext : Matrix (Fin 4) (Fin 4) ℝ)
    (c : Fin 3 → ℝ) :
    (gen_alpha rz ext c).2 = (gen_alpha rz ext c).1 - gen_theta ext c := rfl

/-- C1 counterexample: a single record with an empty (falsy) result yields
zero COCO `images` entries, not one — `_to_coco` skips such records with
`continue` instead of emitting an image with zero annotations. -/
theorem coco_images_empty_record_cex :
    (cocoImages [{ name := "a", width := 4, height := 3,
                   imageUrl := "http://h/f.jpg", result := none }]).length ≠ 1 := by
  decide

/-- C1 (amended): the number of emitted COCO `images` entries equals the
number of input records whose result is non-empty; records with an empty
result are skipped entirely and yield no image entry. A record with a
non-empty result still yields exactly one image even when it contains zero
convertible objects. -/
theorem coco_images_count (annos : List AnnoRecord) :
    (cocoImages annos).length
      = (annos.filter (fun a => a.result.isSome)).length :=
  cocoImagesAux_length 0 annos

/-- C5 counterexample: for an object whose `className` key is present but
empty and whose `modelClass` is `"Car"`, `_get_label` returns `"null"`, not
the model-predicted class the claim's fallback order promises. -/
theorem get_label_fallback_cex :
    _get_label ⟨some "", some "Car", "RECTANGLE", [], [], none⟩
      ≠ claimGetLabel ⟨some "", some "Car", "RECTANGLE", [], [], none⟩ := by
  decide

/-- C5 (amended): the label is never empty; it equals `className` when that
key is present and non-empty; a present-but-empty `className` yields
`"null"` regardless of `modelClass`; only when the `className` key is absent
does the label fall back to a non-empty `modelClass`, else `"null"`. -/
theorem get_label_amended (obj : ImageObj) :
    _get_label obj ≠ "" ∧
    (∀ l, obj.className = some l → l ≠ "" → _get_label obj = l) ∧
    (obj.className = some "" → _get_label obj = "null") ∧
    (obj.className = none →
      ∀ m, obj.modelClass = some m → m ≠ "" → _get_label obj = m) ∧
    (obj.className = none → truthyStr obj.modelClass = none →
      _get_label obj = "null") := by
  obtain ⟨cn, mc, ty, pts, cv, conf⟩ := obj
  simp only [_get_label]
  cases cn with
  | some l =>
    by_cases hl : l = "" <;> simp [hl, truthyStr]
  | none =>
    cases mc with
    | some m => by_cases hm : m = "" <;> simp [hm, truthyStr]
    | none => simp [truthyStr]

/-- C5 witness: a present non-empty `className` is returned as the label. -/
theorem get_label_amended_witness :
    _get_label ⟨some "Car", none, "RECTANGLE", [], [], none⟩ = "Car" :=
  (get_label_amended ⟨some "Car", none, "RECTANGLE", [], [], none⟩).2.1 "Car" rfl
    (by decide)

/-- C6: reconstitution with the drop flag set produces exactly the records
whose merged result is non-empty (the filter of the unfiltered output), and
with the flag unset the output has one record per data entry. -/
theorem reconstitution_dropna_spec (resultFiles : List (ResultShard × List ResultShard))
    (datas : List DataContent) :
    reconstitution true resultFiles datas
      = (reconstitution false resultFiles datas).filter (fun a => a.result.isSome)
    ∧ (reconstitution false resultFiles datas).length = datas.length := by
  simp only [reconstitution]
  constructor
  · induction datas with
    | nil => rfl
    | cons d ds ih =>
      simp only [List.filterMap_cons]
      rw [ih]
      cases h : idResultGet (resultFiles.map (fun f => mergeResultFile f.1 f.2)) d.dataId <;>
        simp [h]
  · induction datas with
    | nil => rfl
    | cons d ds ih => simp [List.filterMap_cons, ih]

/-- C7: `DontCare` and `Misc` labeled KITTI lines contribute no object at
all on import — `parse_result` produces the same object list as if those
lines were removed from the label file beforehand. -/
theorem parse_result_drops_dontcare_misc (ext : Matrix (Fin 4) (Fin 4) ℝ)
    (gen : ℕ → String) (lines : List KittiLine) :
    parseKittiLines ext gen 1 lines
      = parseKittiLines ext gen 1
          (lines.filter (fun l => decide (l.label ≠ "DontCare" ∧ l.label ≠ "Misc"))) :=
  parseKittiLines_filter ext gen 1 lines

/-- C8: encoding a `RECTANGLE` to a COCO bbox and decoding it back yields
the axis-aligned box spanned by the rounded minimum and maximum corners of
the original points. -/
theorem coco_rect_roundtrip (points : List (ℚ × ℚ)) (_hne : points ≠ []) :
    parseCocoBboxPoints (cocoRectBbox points)
      = [(listMin (points.map (fun p => pyround p.1)),
          listMin (points.map (fun p => pyround p.2))),
         (listMax (points.map (fun p => pyround p.1)),
          listMax (points.map (fun p => pyround p.2)))] := by
  simp only [cocoRectBbox, parseCocoBboxPoints, List.getD_cons_zero,
    List.getD_cons_succ, List.cons.injEq, Prod.mk.injEq, and_true]
  exact ⟨trivial, by ring, by ring⟩

/-- C9: reversing a polygon's point list leaves `polygon_area` unchanged,
because the signed shoelace sum is negated by reversal and only its absolute
value enters the area (the exporter feeds the x and y coordinate lists of
the point sequence, here obtained from the point list as at the call site). -/
theorem polygon_area_reverse (pts : List (ℚ × ℚ)) :
    polygon_area (pts.reverse.map Prod.fst) (pts.reverse.map Prod.snd)
      = polygon_area (pts.map Prod.fst) (pts.map Prod.snd) := by
  simp only [polygon_area, List.map_reverse]
  rw [shoelace_reverse _ _ (by simp), abs_neg]

/-- C8 witness: a concrete rectangle round-trips to its rounded extrema. -/
theorem coco_rect_roundtrip_witness :
    parseCocoBboxPoints (cocoRectBbox [((1 : ℚ)/2, (3 : ℚ)/2), ((5 : ℚ), (7 : ℚ))])
      = [((0 : ℤ), (2 : ℤ)), ((5 : ℤ), (7 : ℤ))] := by
  rw [coco_rect_roundtrip _ (by decide)]
  with_unfolding_all decide


/-- C10 counterexample: with a negative view index the string key
`trackId + "-" + str(viewIndex)` collides across distinct (trackId,
viewIndex) pairs: among these three rects the last one with pair
`("a", -1)` is `collideRect2`, yet it produces no label line — the rect of
trackId `"a-"` at view 1 overwrote the shared key `"a--1"`. -/
theorem kitti_rect_dedup_cex :
    (([collideRect1, collideRect2, collideRect3].filter
        (fun r => r.trackId == "a" && r.viewIndex == (-1 : ℤ))).getLast?
      = some collideRect2)
    ∧ collideRect2 ∉ (kittiObjRect [collideRect1, collideRect2, collideRect3]).map
        Prod.snd := by
  decide

/-- C10 (amended): `_to_kitti` deduplicates the record's 2D_RECTs by the
string key `f"{trackId}-{viewIndex}"`. Provided distinct (trackId,
viewIndex) pairs yield distinct string keys (which holds e.g. whenever all
view indices are non-negative), the emitted rect set contains, for every
(trackId, viewIndex) pair, exactly the last input rect with that pair —
so at most one line per pair, produced by the last rect in input order. -/
theorem kitti_rect_dedup (objs : List XObj) (t : String) (v : ℤ)
    (H : ∀ a ∈ objs.filter (fun x => x.type == "2D_RECT"),
         ∀ b ∈ objs.filter (fun x => x.type == "2D_RECT"),
         rectKey a = rectKey b → a.trackId = b.trackId ∧ a.viewIndex = b.viewIndex) :
    ((kittiObjRect objs).map Prod.snd).filter
        (fun r => r.trackId == t && r.viewIndex == v)
      = ((objs.filter (fun x => x.type == "2D_RECT")).filter
          (fun r => r.trackId == t && r.viewIndex == v)).getLast?.toList := by
  have hmem : ∀ q ∈ kittiObjRect objs,
      q.1 = rectKey q.2 ∧ q.2 ∈ objs.filter (fun x => x.type == "2D_RECT") := by
    apply buildDict_mem
    intro q hq
    rw [List.mem_map] at hq
    obtain ⟨x, hx, he⟩ := hq
    subst he
    exact ⟨rfl, hx⟩
  by_cases hex : ∃ r ∈ objs.filter (fun x => x.type == "2D_RECT"),
      (r.trackId == t && r.viewIndex == v) = true
  · obtain ⟨r0, hr0, hp0⟩ := hex
    rw [Bool.and_eq_true, beq_iff_eq, beq_iff_eq] at hp0
    have hkey0 : rectKey r0 = t ++ "-" ++ toString v := by
      rw [rectKey, hp0.1, hp0.2]
    have hiff : ∀ r ∈ objs.filter (fun x => x.type == "2D_RECT"),
        (r.trackId == t && r.viewIndex == v)
          = (rectKey r == (t ++ "-" ++ toString v)) := by
      intro r hr
      by_cases hpr : (r.trackId == t && r.viewIndex == v) = true
      · rw [hpr]
        rw [Bool.and_eq_true, beq_iff_eq, beq_iff_eq] at hpr
        symm
        rw [beq_iff_eq, rectKey, hpr.1, hpr.2]
      · rw [Bool.eq_false_iff.mpr hpr]
        symm
        rw [Bool.eq_false_iff]
        intro hc
        rw [beq_iff_eq] at hc
        have hpair := H r hr r0 hr0 (by rw [hc, hkey0])
        apply hpr
        rw [Bool.and_eq_true, beq_iff_eq, beq_iff_eq]
        exact ⟨hpair.1.trans hp0.1, hpair.2.trans hp0.2⟩
    rw [List.filter_map]
    have hcongr : (kittiObjRect objs).filter
          ((fun r => r.trackId == t && r.viewIndex == v) ∘ Prod.snd)
        = (kittiObjRect objs).filter (fun q => q.1 == (t ++ "-" ++ toString v)) := by
      apply List.filter_congr
      intro q hq
      have hm := hmem q hq
      simp only [Function.comp_apply]
      rw [hiff q.2 hm.2, hm.1]
    rw [hcongr, kittiObjRect, buildDict_filter, List.filter_map]
    have hcongr2 : (objs.filter (fun x => x.type == "2D_RECT")).filter
          ((fun q => q.1 == (t ++ "-" ++ toString v)) ∘ (fun x => (rectKey x, x)))
        = (objs.filter (fun x => x.type == "2D_RECT")).filter
          (fun r => r.trackId == t && r.viewIndex == v) := by
      apply List.filter_congr
      intro r hr
      simp only [Function.comp_apply]
      rw [hiff r hr]
    rw [hcongr2, List.getLast?_map]
    cases hlast : ((objs.filter (fun x => x.type == "2D_RECT")).filter
        (fun r => r.trackId == t && r.viewIndex == v)).getLast? with
    | none => rfl
    | some q => rfl
  · push_neg at hex
    have hnil : (objs.filter (fun x => x.type == "2D_RECT")).filter
        (fun r => r.trackId == t && r.viewIndex == v) = [] := by
      rw [List.filter_eq_nil_iff]
      intro a ha hpa
      exact hex a ha hpa
    rw [hnil]
    have hlhs : ((kittiObjRect objs).map Prod.snd).filter
        (fun r => r.trackId == t && r.viewIndex == v) = [] := by
      rw [List.filter_eq_nil_iff]
      intro a ha hpa
      rw [List.mem_map] at ha
      obtain ⟨q, hq, he⟩ := ha
      subst he
      exact hex q.2 (hmem q hq).2 hpa
    rw [hlhs]
    rfl

/-- C10 witness: with two rects sharing pair ("a", 0), exactly the later
one survives deduplication. -/
theorem kitti_rect_dedup_witness :
    ((kittiObjRect [dedupRectA, dedupRectB]).map Prod.snd).filter
      (fun r => r.trackId == "a" && r.viewIndex == (0 : ℤ)) = [dedupRectB] := by
  rw [kitti_rect_dedup [dedupRectA, dedupRectB] "a" 0 (by decide)]
  decide

/-- C4: in the kitti-like export, when a record contains a 3D_BOX with
trackId `tid` and exactly one observed 2D_RECT `r` with that trackId, at
view `v < nCams`, the completed object set contains exactly `nCams` rects
with that trackId: the observed rect plus one zero-size placeholder for
every other view index in `0..nCams-1`. -/
theorem kitti_like_completion (nCams : ℕ) (objs : List XObj) (tid : String)
    (r b : XObj) (v : ℕ)
    (hb : (objs.filter (fun x => x.type == "3D_BOX" && x.trackId == tid)).getLast?
        = some b)
    (hr : objs.filter (fun x => x.type == "2D_RECT" && x.trackId == tid) = [r])
    (hv : r.viewIndex = (v : ℤ)) (hvn : v < nCams) :
    (kittiLikeRects nCams objs).filter (fun x => x.trackId == tid)
      = r :: ((List.range nCams).filter (fun w => w != v)).map
          (fun w : ℕ => zeroRect tid b.className (w : ℤ))
    ∧ ((kittiLikeRects nCams objs).filter (fun x => x.trackId == tid)).length = nCams := by
  have hrects : (objs.filter (fun x => x.type == "2D_RECT")).filter
      (fun x => x.trackId == tid) = [r] := by
    rw [List.filter_filter]
    have hcomm : ∀ a ∈ objs,
        ((a.trackId == tid) && (a.type == "2D_RECT"))
          = ((a.type == "2D_RECT") && (a.trackId == tid)) := by
      intro a _
      exact Bool.and_comm _ _
    rw [List.filter_congr hcomm, hr]
  have hmain : (kittiLikeRects nCams objs).filter (fun x => x.trackId == tid)
      = r :: ((List.range nCams).filter (fun w => w != v)).map
          (fun w : ℕ => zeroRect tid b.className (w : ℤ)) := by
    simp only [kittiLikeRects]
    rw [List.filter_append, hrects, List.filter_flatMap]
    rw [flatMap_filterKey _ _ _ ?hg]
    case hg =>
      intro ti x hx
      rw [List.mem_map] at hx
      obtain ⟨w, hw, he⟩ := hx
      subst he
      rfl
    have hitems : ((objs.filter (fun x => x.type == "3D_BOX")).map
          (fun x => (x.trackId, x))).filter (fun p => p.1 == tid)
        = (objs.filter (fun x => x.type == "3D_BOX" && x.trackId == tid)).map
          (fun x => (x.trackId, x)) := by
      rw [List.filter_map]
      congr 1
      rw [List.filter_filter]
      apply List.filter_congr
      intro a _
      simp only [Function.comp_apply]
      exact Bool.and_comm _ _
    have hdict : (buildDict ((objs.filter (fun x => x.type == "3D_BOX")).map
          (fun x => (x.trackId, x)))).filter (fun p => p.1 == tid)
        = [(tid, b)] := by
      rw [buildDict_filter, hitems, List.getLast?_map, hb]
      have hbtid : b.trackId = tid := by
        have hbm : b ∈ objs.filter (fun x => x.type == "3D_BOX" && x.trackId == tid) :=
          List.mem_of_getLast?_eq_some hb
        rw [List.mem_filter, Bool.and_eq_true] at hbm
        exact eq_of_beq hbm.2.2
      simp [hbtid]
    rw [hdict]
    simp only [List.flatMap_cons, List.flatMap_nil, List.append_nil]
    simp only [groupbyGet]
    rw [hrects]
    simp only [List.any_cons, List.any_nil, Bool.or_false, hv]
    have hfc : ∀ w ∈ List.range nCams, (!(((v : ℕ) : ℤ) == ((w : ℕ) : ℤ))) = (w != v) := by
      intro w _
      by_cases hwv : w = v
      · subst hwv
        simp
      · have hvz : (((v : ℕ) : ℤ) == ((w : ℕ) : ℤ)) = false := by
          rw [beq_eq_false_iff_ne]
          intro hc
          exact hwv (by exact_mod_cast hc.symm)
        rw [hvz]
        simp [bne_iff_ne, hwv]
    rw [List.filter_congr hfc]
    rfl
  refine ⟨hmain, ?_⟩
  rw [hmain]
  simp only [List.length_cons, List.length_map]
  rw [length_filter_range_ne _ _ hvn]
  omega

/-- C4 witness: 3 cameras, one 3D box observed only at view 1 — the
completed set has exactly 3 rects with that trackId, with zero-size
placeholders at views 0 and 2. -/
theorem kitti_like_completion_witness :
    (kittiLikeRects 3 [complBox, complObsRect]).filter (fun x => x.trackId == "T")
      = [complObsRect, zeroRect "T" "Car" 0, zeroRect "T" "Car" 2]
    ∧ ((kittiLikeRects 3 [complBox, complObsRect]).filter
        (fun x => x.trackId == "T")).length = 3 := by
  have h := kitti_like_completion 3 [complBox, complObsRect] "T" complObsRect complBox 1
    (by decide) (by decide) (by decide) (by decide)
  refine ⟨?_, h.2⟩
  rw [h.1]
  decide

end Xtreme1
